import Mathlib

/-!
Shallow embedding of the mamami-client repository pieces that the claims
concern: the WebSocketService handler table, reconnect counter, message
dispatcher, authentication handshake guards, the ChatRoom and
DirectMessageChat list-update callbacks, the Agora channel-name sanitiser
and the JWT token validator.

Two WebSocketService variants exist in the repository; we suffix the
embedding of the maxReconnectAttempts = 5 variant with A and the
maxReconnectAttempts = 2 variant with B.
-/

namespace Mamami

/-! ## Handler table: JS Map from event name to an array of handlers.

Handlers are identified abstractly by natural numbers.  The association
list mirrors a JS Map: set replaces the value of an existing key in place
and appends a fresh key at the end, get finds the first matching key. -/

abbrev Handler := Nat

abbrev EvMap := List (String × List Handler)

def getEv : EvMap → String → Option (List Handler)
  | [], _ => none
  | (k, v) :: rest, e => if k = e then some v else getEv rest e

def hasEv (m : EvMap) (e : String) : Bool :=
  (getEv m e).isSome

def setEv : EvMap → String → List Handler → EvMap
  | [], e, v => [(e, v)]
  | (k, w) :: rest, e, v => if k = e then (k, v) :: rest else (k, w) :: setEv rest e v

/-- Embedding of WebSocketService.on: create an empty list for the event
if absent, then push the handler at the end of the list for that event. -/
def onEv (m : EvMap) (e : String) (h : Handler) : EvMap :=
  let m1 := if hasEv m e then m else setEv m e []
  setEv m1 e ((getEv m1 e).getD [] ++ [h])

/-- Embedding of WebSocketService.off: look the event up; when the handler
occurs in the list (indexOf greater than -1), splice out its first
occurrence; otherwise leave everything untouched. -/
def offEv (m : EvMap) (e : String) (h : Handler) : EvMap :=
  match getEv m e with
  | none => m
  | some l => if h ∈ l then setEv m e (l.erase h) else m

theorem getEv_setEv_self (m : EvMap) (e : String) (v : List Handler) :
    getEv (setEv m e v) e = some v := by
  induction m with
  | nil => simp [setEv, getEv]
  | cons kv rest ih =>
      obtain ⟨k, w⟩ := kv
      by_cases hk : k = e
      · simp [setEv, getEv, hk]
      · simp [setEv, getEv, hk, ih]

theorem getEv_setEv_ne (m : EvMap) (e e' : String) (v : List Handler)
    (hne : e' ≠ e) : getEv (setEv m e v) e' = getEv m e' := by
  have hne' : ¬ (e = e') := fun hh => hne hh.symm
  induction m with
  | nil => simp [setEv, getEv, hne']
  | cons kv rest ih =>
      obtain ⟨k, w⟩ := kv
      by_cases hk : k = e
      · subst hk
        simp [setEv, getEv, hne']
      · simp [setEv, getEv, hk, ih]

theorem getD_getEv_onEv_self (m : EvMap) (e : String) (h : Handler) :
    (getEv (onEv m e h) e).getD [] = (getEv m e).getD [] ++ [h] := by
  unfold onEv hasEv
  by_cases hs : (getEv m e).isSome
  · simp [hs, getEv_setEv_self]
  · have hnone : getEv m e = none := by
      cases hg : getEv m e with
      | none => rfl
      | some l => rw [hg] at hs; simp at hs
    simp [hs, hnone, getEv_setEv_self]

theorem getEv_onEv_ne (m : EvMap) (e e' : String) (h : Handler)
    (hne : e' ≠ e) : getEv (onEv m e h) e' = getEv m e' := by
  unfold onEv hasEv
  by_cases hs : (getEv m e).isSome
  · simp [hs, getEv_setEv_ne _ _ _ _ hne]
  · simp [hs, getEv_setEv_ne _ _ _ _ hne]

/-- C8: the handler table is a mapping from event name to a list of
callbacks with a round-trip law.  For a handler not currently registered
under an event, on followed by off restores the handler-list contents of
every event, and off on an unregistered handler leaves the table
unchanged (literally equal). -/
theorem on_off_roundtrip (m : EvMap) (e : String) (h : Handler)
    (hnotin : h ∉ (getEv m e).getD []) :
    (∀ e', (getEv (offEv (onEv m e h) e h) e').getD [] = (getEv m e').getD []) ∧
    offEv m e h = m := by
  constructor
  · intro e'
    have hself : (getEv (onEv m e h) e).getD [] = (getEv m e).getD [] ++ [h] :=
      getD_getEv_onEv_self m e h
    have hmem : h ∈ (getEv (onEv m e h) e).getD [] := by
      rw [hself]; simp
    have hgete : ∃ l, getEv (onEv m e h) e = some l ∧ l = (getEv m e).getD [] ++ [h] := by
      cases hg : getEv (onEv m e h) e with
      | none => rw [hg] at hself; simp at hself
      | some l => exact ⟨l, rfl, by rw [hg] at hself; simpa using hself⟩
    obtain ⟨l, hl, hlval⟩ := hgete
    have herase : l.erase h = (getEv m e).getD [] := by
      rw [hlval]
      rw [List.erase_append_right _ (by simpa using hnotin)]
      simp
    unfold offEv
    rw [hl]
    have hmem' : h ∈ l := by rw [hlval]; simp
    simp only [hmem', if_pos]
    by_cases he' : e' = e
    · subst he'
      rw [getEv_setEv_self, herase]
      simp
    · rw [getEv_setEv_ne _ _ _ _ he', getEv_onEv_ne _ _ _ _ he']
  · unfold offEv
    cases hg : getEv m e with
    | none => rfl
    | some l =>
        have : h ∉ l := by rw [hg] at hnotin; simpa using hnotin
        simp [this]

/-- C8 witness: on followed by off at a concrete table restores the
contents, and off of an unregistered handler is a no-op. -/
theorem on_off_roundtrip_witness :
    (∀ e', (getEv (offEv (onEv [("error", [3])] "error" 7) "error" 7) e').getD []
      = (getEv [("error", [3])] e').getD []) ∧
    offEv [("error", [3])] "error" 7 = [("error", [3])] :=
  on_off_roundtrip [("error", [3])] "error" 7 (by decide)

/-! ## Reconnect counter.

Variant A is the service with maxReconnectAttempts = 5 and
reconnectDelay = 1000 (linear delay); variant B is the service with
maxReconnectAttempts = 2 and reconnectDelay = 5000 (delay
reconnectDelay * 2 ^ (reconnectAttempts - 1) computed after the
increment).  handleReconnect is modelled as a function from the handler
table and the current reconnectAttempts value to the updated counter, the
optional setTimeout delay of the scheduled attempt, and the list of
handler invocations it performs. -/

structure ErrorNotice where
  message : String
  type : String
deriving DecidableEq

def connectionFailedNotice : ErrorNotice :=
  { message := "WebSocket connection failed after maximum attempts"
    type := "connection-failed" }

def maxReconnectAttemptsA : Nat := 5

def reconnectDelayA : Nat := 1000

def maxReconnectAttemptsB : Nat := 2

def reconnectDelayB : Nat := 5000

/-- Variant A handleReconnect: below the maximum it increments the counter
and schedules a reconnect after reconnectDelay * reconnectAttempts; at the
maximum it emits a connection-failed notice to every handler registered
under the error event. -/
def handleReconnectA (tbl : EvMap) (attempts : Nat) :
    Nat × Option Nat × List (Handler × ErrorNotice) :=
  if attempts < maxReconnectAttemptsA then
    (attempts + 1, some (reconnectDelayA * (attempts + 1)), [])
  else
    (attempts, none, ((getEv tbl "error").getD []).map (fun h => (h, connectionFailedNotice)))

/-- Variant B handleReconnect: below the maximum it increments the counter
and schedules a reconnect after reconnectDelay * 2 ^ (reconnectAttempts - 1)
computed on the incremented counter; at the maximum it only logs. -/
def handleReconnectB (tbl : EvMap) (attempts : Nat) :
    Nat × Option Nat × List (Handler × ErrorNotice) :=
  if attempts < maxReconnectAttemptsB then
    (attempts + 1, some (reconnectDelayB * 2 ^ attempts), [])
  else
    (attempts, none, [])

/-- Variant A onclose: any close whose code differs from 1000 calls
handleReconnect. -/
def oncloseA (tbl : EvMap) (code : Nat) (attempts : Nat) :
    Nat × Option Nat × List (Handler × ErrorNotice) :=
  if code ≠ 1000 then handleReconnectA tbl attempts else (attempts, none, [])

/-- Variant B onclose: a close whose code differs from 1000 calls
handleReconnect only while the counter is below the maximum. -/
def oncloseB (tbl : EvMap) (code : Nat) (attempts : Nat) :
    Nat × Option Nat × List (Handler × ErrorNotice) :=
  if code ≠ 1000 ∧ attempts < maxReconnectAttemptsB then handleReconnectB tbl attempts
  else (attempts, none, [])

/-- Folding variant A over a sequence of close codes, counting how many
reconnection attempts get scheduled. -/
def runClosesA (tbl : EvMap) : List Nat → Nat → Nat × Nat
  | [], a => (a, 0)
  | c :: rest, a =>
      let r := oncloseA tbl c a
      let s := runClosesA tbl rest r.1
      (s.1, (if r.2.1.isSome then 1 else 0) + s.2)

/-- Folding variant B over a sequence of close codes, counting how many
reconnection attempts get scheduled. -/
def runClosesB (tbl : EvMap) : List Nat → Nat → Nat × Nat
  | [], a => (a, 0)
  | c :: rest, a =>
      let r := oncloseB tbl c a
      let s := runClosesB tbl rest r.1
      (s.1, (if r.2.1.isSome then 1 else 0) + s.2)

theorem runClosesA_count_le (tbl : EvMap) (codes : List Nat) (a : Nat) :
    (runClosesA tbl codes a).2 ≤ maxReconnectAttemptsA - a := by
  induction codes generalizing a with
  | nil => simp [runClosesA]
  | cons c rest ih =>
      by_cases hc : c ≠ 1000
      · by_cases ha : a < maxReconnectAttemptsA
        · have ho : oncloseA tbl c a
              = (a + 1, some (reconnectDelayA * (a + 1)), []) := by
            simp [oncloseA, handleReconnectA, hc, ha]
          have h1 := ih (a + 1)
          simp only [runClosesA, ho]
          simp only [Option.isSome_some, if_true]
          omega
        · have ho : oncloseA tbl c a
              = (a, none,
                 ((getEv tbl "error").getD []).map (fun h => (h, connectionFailedNotice))) := by
            simp [oncloseA, handleReconnectA, hc, ha]
          have h1 := ih a
          simp only [runClosesA, ho]
          simp
          omega
      · have ho : oncloseA tbl c a = (a, none, []) := by
          simp [oncloseA, hc]
        have h1 := ih a
        simp only [runClosesA, ho]
        simp
        omega

theorem runClosesB_count_le (tbl : EvMap) (codes : List Nat) (a : Nat) :
    (runClosesB tbl codes a).2 ≤ maxReconnectAttemptsB - a := by
  induction codes generalizing a with
  | nil => simp [runClosesB]
  | cons c rest ih =>
      by_cases hcb : c ≠ 1000 ∧ a < maxReconnectAttemptsB
      · have ho : oncloseB tbl c a
            = (a + 1, some (reconnectDelayB * 2 ^ a), []) := by
          simp [oncloseB, handleReconnectB, hcb, hcb.2]
        have h1 := ih (a + 1)
        simp only [runClosesB, ho]
        simp only [Option.isSome_some, if_true]
        omega
      · have ho : oncloseB tbl c a = (a, none, []) := by
          simp only [oncloseB, hcb]
          simp
        have h1 := ih a
        simp only [runClosesB, ho]
        simp
        omega

/-- C2: the reconnect counter is bounded.  The maxima are 5 and 2 for the
two variants, handleReconnect leaves the counter at most the maximum,
schedules a new attempt exactly while the counter is strictly below the
maximum, and along any sequence of non-deliberate close events (code not
equal to 1000, possibly interleaved with deliberate ones) at most
maxReconnectAttempts reconnection attempts are ever scheduled. -/
theorem reconnect_counter_bounded :
    maxReconnectAttemptsA = 5 ∧ maxReconnectAttemptsB = 2 ∧
    (∀ tbl a, a ≤ maxReconnectAttemptsA →
      (handleReconnectA tbl a).1 ≤ maxReconnectAttemptsA) ∧
    (∀ tbl a, a ≤ maxReconnectAttemptsB →
      (handleReconnectB tbl a).1 ≤ maxReconnectAttemptsB) ∧
    (∀ tbl a, (handleReconnectA tbl a).2.1.isSome = true ↔ a < maxReconnectAttemptsA) ∧
    (∀ tbl a, (handleReconnectB tbl a).2.1.isSome = true ↔ a < maxReconnectAttemptsB) ∧
    (∀ tbl codes, (runClosesA tbl codes 0).2 ≤ maxReconnectAttemptsA) ∧
    (∀ tbl codes, (runClosesB tbl codes 0).2 ≤ maxReconnectAttemptsB) := by
  refine ⟨rfl, rfl, ?_, ?_, ?_, ?_, ?_, ?_⟩
  · intro tbl a ha
    unfold handleReconnectA
    split <;> omega
  · intro tbl a ha
    unfold handleReconnectB
    split <;> omega
  · intro tbl a
    unfold handleReconnectA
    split <;> simp_all
  · intro tbl a
    unfold handleReconnectB
    split <;> simp_all
  · intro tbl codes
    simpa using runClosesA_count_le tbl codes 0
  · intro tbl codes
    simpa using runClosesB_count_le tbl codes 0

/-- C2 witness: instantiating the bound at a concrete table, counter and
close-code sequence. -/
theorem reconnect_counter_bounded_witness :
    (handleReconnectA [] 5).1 ≤ maxReconnectAttemptsA ∧
    (runClosesB [] [1006, 1006, 1006, 1006] 0).2 ≤ maxReconnectAttemptsB :=
  ⟨reconnect_counter_bounded.2.2.1 [] 5 (by decide),
   reconnect_counter_bounded.2.2.2.2.2.2.2 [] [1006, 1006, 1006, 1006]⟩

/-- C4 counterexample: in variant A, once the maximum number of attempts
is reached, handleReconnect delivers a connection-failed error object to
every handler registered under the error event, so the fallback is not
silent: with handler 7 registered, the invocation list is nonempty. -/
theorem max_attempts_not_silent_cex :
    (handleReconnectA [("error", [7])] 5).2.2 = [(7, connectionFailedNotice)] ∧
    (handleReconnectA [("error", [7])] 5).2.2 ≠ [] := by
  constructor
  · decide
  · decide

/-- C4 amended: once the maximum is reached neither variant schedules a
further connection attempt; variant B (max 2) notifies no handler at all,
while variant A (max 5) delivers the connection-failed notice to exactly
the handlers registered under the error event. -/
theorem max_attempts_fallback (tbl : EvMap) (a : Nat) :
    (maxReconnectAttemptsA ≤ a →
      (handleReconnectA tbl a).2.1 = none ∧
      (handleReconnectA tbl a).2.2
        = ((getEv tbl "error").getD []).map (fun h => (h, connectionFailedNotice))) ∧
    (maxReconnectAttemptsB ≤ a →
      (handleReconnectB tbl a).2.1 = none ∧
      (handleReconnectB tbl a).2.2 = []) := by
  constructor
  · intro ha
    unfold handleReconnectA
    have : ¬ a < maxReconnectAttemptsA := by omega
    simp [this]
  · intro hb
    unfold handleReconnectB
    have : ¬ a < maxReconnectAttemptsB := by omega
    simp [this]

/-- C4 witness: at the maxed-out counter, variant B schedules nothing and
notifies nobody. -/
theorem max_attempts_fallback_witness :
    (handleReconnectB [("error", [7])] 2).2.1 = none ∧
    (handleReconnectB [("error", [7])] 2).2.2 = [] :=
  (max_attempts_fallback [("error", [7])] 2).2 (by decide)

/-- C5: the scheduled back-off is reconnectDelay times the attempt number
on the whole range of both variants.  Entering handleReconnect with the
counter at n - 1 schedules the n-th attempt; variant A computes the delay
as reconnectDelay * n directly, and variant B computes
reconnectDelay * 2 ^ (n - 1), which coincides with reconnectDelay * n for
every n in its range 1 ≤ n ≤ 2. -/
theorem backoff_linear (tbl : EvMap) (n : Nat) :
    (1 ≤ n → n ≤ maxReconnectAttemptsA →
      (handleReconnectA tbl (n - 1)).2.1 = some (reconnectDelayA * n)) ∧
    (1 ≤ n → n ≤ maxReconnectAttemptsB →
      (handleReconnectB tbl (n - 1)).2.1 = some (reconnectDelayB * n)) := by
  constructor
  · intro h1 h5
    unfold handleReconnectA
    have hlt : n - 1 < maxReconnectAttemptsA := by
      unfold maxReconnectAttemptsA at *; omega
    have heq : n - 1 + 1 = n := by omega
    simp [hlt, heq]
  · intro h1 h2
    unfold handleReconnectB
    have hlt : n - 1 < maxReconnectAttemptsB := by
      unfold maxReconnectAttemptsB at *; omega
    simp only [hlt, if_pos, Option.some.injEq]
    unfold maxReconnectAttemptsB at h2
    interval_cases n <;> decide

/-- C5 witness: the second attempt of variant B is scheduled after
reconnectDelay times two. -/
theorem backoff_linear_witness :
    (handleReconnectB [] (2 - 1)).2.1 = some (reconnectDelayB * 2) :=
  (backoff_linear [] 2).2 (by decide) (by decide)

/-! ## Message dispatch.

handleMessage is a chain of string comparisons on the type field; each
branch fetches the handler list registered under that same string and
invokes every handler on a payload derived from the data and message
fields (JS truthiness: a missing field or the empty string falls
through).  Payload values are modelled as strings, the handler receives
either such a value or the whole envelope. -/

structure WsMessage where
  type : String
  data : Option String := none
  message : Option String := none
deriving DecidableEq

inductive Dispatched where
  | payload (v : String)
  | whole (m : WsMessage)
deriving DecidableEq

def jsTruthy (o : Option String) : Bool :=
  match o with
  | none => false
  | some s => s ≠ ""

/-- The JS expression x or-else the whole message. -/
def orWhole (o : Option String) (m : WsMessage) : Dispatched :=
  if jsTruthy o then .payload (o.getD "") else .whole m

/-- The JS expression x or-else y or-else the whole message. -/
def orOrWhole (a b : Option String) (m : WsMessage) : Dispatched :=
  if jsTruthy a then .payload (a.getD "")
  else if jsTruthy b then .payload (b.getD "") else .whole m

/-- Invoke every handler registered under an event on a payload, in
registration order. -/
def invoke (tbl : EvMap) (e : String) (d : Dispatched) : List (Handler × Dispatched) :=
  ((getEv tbl e).getD []).map (fun h => (h, d))

/-- One step of the if-chain: compare the type field against the branch
string; on a match invoke the handlers registered under that same string
on the branch payload, otherwise fall through, ending in the generic
branch that uses the type field itself. -/
def dispatchChain (tbl : EvMap) (m : WsMessage) : List (String × Dispatched) → List (Handler × Dispatched)
  | [] => invoke tbl m.type (orWhole m.data m)
  | (s, d) :: rest => if m.type = s then invoke tbl s d else dispatchChain tbl m rest

/-- The branch list of variant A handleMessage (the service with
maxReconnectAttempts = 5), in source order with the payload each branch
passes to its handlers. -/
def branchesA (m : WsMessage) : List (String × Dispatched) :=
  [("authenticated", .whole m),
   ("new-message", orWhole m.data m),
   ("message-sent", orWhole m.data m),
   ("new-direct-message", orOrWhole m.data m.message m),
   ("direct-message-sent", orOrWhole m.message m.data m),
   ("friend-request-received", orWhole m.data m),
   ("friend-request-accepted", orWhole m.data m),
   ("friend-request-rejected", orWhole m.data m),
   ("friend-removed", orWhole m.data m),
   ("user-typing", orWhole m.data m),
   ("call-initiated", .whole m),
   ("incoming-call", orWhole m.data m),
   ("call-accepted", .whole m),
   ("call-rejected", .whole m),
   ("call-ended", .whole m),
   ("call-missed", .whole m),
   ("error", .whole m)]

/-- The branch list of variant B handleMessage (the service with
maxReconnectAttempts = 2): it adds joined-circle and left-circle branches
and derives the new-message payload from data, message, then the whole
envelope. -/
def branchesB (m : WsMessage) : List (String × Dispatched) :=
  [("authenticated", .whole m),
   ("new-message", orOrWhole m.data m.message m),
   ("joined-circle", orWhole m.data m),
   ("left-circle", orWhole m.data m),
   ("message-sent", orWhole m.data m),
   ("new-direct-message", orOrWhole m.data m.message m),
   ("direct-message-sent", orOrWhole m.message m.data m),
   ("friend-request-received", orWhole m.data m),
   ("friend-request-accepted", orWhole m.data m),
   ("friend-request-rejected", orWhole m.data m),
   ("friend-removed", orWhole m.data m),
   ("user-typing", orWhole m.data m),
   ("call-initiated", .whole m),
   ("incoming-call", orWhole m.data m),
   ("call-accepted", .whole m),
   ("call-rejected", .whole m),
   ("call-ended", .whole m),
   ("call-missed", .whole m),
   ("error", .whole m)]

/-- Variant A handleMessage. -/
def handleMessageA (tbl : EvMap) (m : WsMessage) : List (Handler × Dispatched) :=
  dispatchChain tbl m (branchesA m)

/-- Variant B handleMessage. -/
def handleMessageB (tbl : EvMap) (m : WsMessage) : List (Handler × Dispatched) :=
  dispatchChain tbl m (branchesB m)

theorem map_fst_invoke (tbl : EvMap) (e : String) (d : Dispatched) :
    (invoke tbl e d).map Prod.fst = (getEv tbl e).getD [] := by
  unfold invoke
  rw [List.map_map]
  have hcomp : (Prod.fst ∘ fun h : Handler => (h, d)) = id := by
    funext x
    rfl
  rw [hcomp, List.map_id]

theorem map_fst_dispatchChain (tbl : EvMap) (m : WsMessage)
    (bs : List (String × Dispatched)) :
    (dispatchChain tbl m bs).map Prod.fst = (getEv tbl m.type).getD [] := by
  induction bs with
  | nil => simp [dispatchChain, map_fst_invoke]
  | cons sd rest ih =>
      obtain ⟨s, d⟩ := sd
      by_cases hs : m.type = s
      · rw [dispatchChain, if_pos hs, map_fst_invoke, hs]
      · rw [dispatchChain, if_neg hs]
        exact ih

/-- C3: handleMessage dispatches a parsed message exactly to the handlers
registered under its type string: in both variants the sequence of
invoked handlers equals the registered list for that event (each such
handler once, in registration order, and no handler of any other event),
and a message whose type has no registered handlers invokes none. -/
theorem dispatch_exact (tbl : EvMap) (m : WsMessage) :
    (handleMessageA tbl m).map Prod.fst = (getEv tbl m.type).getD [] ∧
    (handleMessageB tbl m).map Prod.fst = (getEv tbl m.type).getD [] ∧
    (getEv tbl m.type = none →
      handleMessageA tbl m = [] ∧ handleMessageB tbl m = []) := by
  have hA : (handleMessageA tbl m).map Prod.fst = (getEv tbl m.type).getD [] :=
    map_fst_dispatchChain tbl m (branchesA m)
  have hB : (handleMessageB tbl m).map Prod.fst = (getEv tbl m.type).getD [] :=
    map_fst_dispatchChain tbl m (branchesB m)
  refine ⟨hA, hB, ?_⟩
  intro hnone
  have hA0 : List.map Prod.fst (handleMessageA tbl m) = [] := by
    rw [hA, hnone]
    rfl
  have hB0 : List.map Prod.fst (handleMessageB tbl m) = [] := by
    rw [hB, hnone]
    rfl
  exact ⟨List.map_eq_nil_iff.mp hA0, List.map_eq_nil_iff.mp hB0⟩

/-- C3 witness: a message of a type with no registered handlers invokes
no handler, and a new-message envelope reaches exactly the two
registered new-message handlers in order. -/
theorem dispatch_exact_witness :
    (handleMessageB [("new-message", [1, 2])]
        { type := "unknown-kind" } = []) ∧
    (handleMessageB [("new-message", [1, 2])]
        { type := "new-message" }).map Prod.fst = [1, 2] := by
  constructor
  · exact ((dispatch_exact [("new-message", [1, 2])] { type := "unknown-kind" }).2.2
      (by decide)).2
  · have h := (dispatch_exact [("new-message", [1, 2])] { type := "new-message" }).2.1
    simpa using h

/-! ## Outgoing frames and the authenticate-first discipline.

OutMessage mirrors the JSON envelopes built by the convenience senders of
variant B (the superset: variant A lacks joinCircle and leaveCircle).
Each sender returns early when isAuthenticated is false; initiateCall
additionally returns early when the socket is not open. -/

structure OutMessage where
  type : String
  token : Option String := none
  circleId : Option String := none
  receiverId : Option String := none
  content : Option String := none
  messageType : Option String := none
  voiceData : Option String := none
  fileName : Option String := none
  duration : Option Nat := none
  isTyping : Option Bool := none
  requestId : Option String := none
  friendId : Option String := none
  callId : Option String := none
deriving DecidableEq

/-- The authentication envelope sent in onopen. -/
def authMessage (token : String) : OutMessage :=
  { type := "authenticate", token := some token }

inductive AppCall where
  | sendMessage (circleId content : String)
  | sendDirectMessage (receiverId content : String)
  | sendVoiceDirectMessage (receiverId voiceData fileName : String) (duration : Option Nat)
  | sendTyping (circleId : String) (isTyping : Bool)
  | sendFriendRequest (receiverId : String)
  | acceptFriendRequest (requestId : String)
  | rejectFriendRequest (requestId : String)
  | removeFriend (friendId : String)
  | joinCircle (circleId : String)
  | leaveCircle (circleId : String)
  | initiateCall (receiverId : String)
  | acceptCall (callId : String)
  | rejectCall (callId : String)
  | endCall (callId : String)
deriving DecidableEq

/-- The envelope each convenience sender would pass to send. -/
def appFrame : AppCall → OutMessage
  | .sendMessage c t => { type := "send-message", circleId := some c, content := some t }
  | .sendDirectMessage r t =>
      { type := "send-direct-message", receiverId := some r, content := some t }
  | .sendVoiceDirectMessage r v f d =>
      { type := "send-direct-message", receiverId := some r,
        messageType := some "VOICE", voiceData := some v, fileName := some f,
        duration := d }
  | .sendTyping c b => { type := "typing", circleId := some c, isTyping := some b }
  | .sendFriendRequest r => { type := "send-friend-request", receiverId := some r }
  | .acceptFriendRequest q => { type := "accept-friend-request", requestId := some q }
  | .rejectFriendRequest q => { type := "reject-friend-request", requestId := some q }
  | .removeFriend f => { type := "remove-friend", friendId := some f }
  | .joinCircle c => { type := "join-circle", circleId := some c }
  | .leaveCircle c => { type := "leave-circle", circleId := some c }
  | .initiateCall r => { type := "initiate-call", receiverId := some r }
  | .acceptCall i => { type := "accept-call", callId := some i }
  | .rejectCall i => { type := "reject-call", callId := some i }
  | .endCall i => { type := "end-call", callId := some i }

/-- The frames a convenience sender hands to send: nothing while
isAuthenticated is false, and initiateCall also requires an open
socket. -/
def sendApp (isAuth wsOpen : Bool) (c : AppCall) : List OutMessage :=
  if isAuth then
    match c with
    | .initiateCall r => if wsOpen then [appFrame (.initiateCall r)] else []
    | c => [appFrame c]
  else []

inductive WsEvent where
  | socketOpen (token : String)
  | recvAuthenticated
  | socketClosed
  | call (c : AppCall)
deriving DecidableEq

structure ClientState where
  isAuthenticated : Bool
  wsOpen : Bool
deriving DecidableEq

def initState : ClientState := { isAuthenticated := false, wsOpen := false }

/-- One client event: onopen sends exactly the authentication envelope;
the authenticated message flips isAuthenticated; onclose clears it; a
convenience call emits whatever sendApp allows. -/
def stepClient (s : ClientState) : WsEvent → ClientState × List OutMessage
  | .socketOpen tk => ({ s with wsOpen := true }, [authMessage tk])
  | .recvAuthenticated => ({ s with isAuthenticated := true }, [])
  | .socketClosed => ({ isAuthenticated := false, wsOpen := false }, [])
  | .call c => (s, sendApp s.isAuthenticated s.wsOpen c)

def runClient (s : ClientState) : List WsEvent → ClientState × List OutMessage
  | [] => (s, [])
  | e :: rest =>
      let r := stepClient s e
      let r2 := runClient r.1 rest
      (r2.1, r.2 ++ r2.2)

theorem runClient_no_auth_only_authenticate (evs : List WsEvent) (s : ClientState)
    (hs : s.isAuthenticated = false) (hno : WsEvent.recvAuthenticated ∉ evs) :
    ∀ f ∈ (runClient s evs).2, f.type = "authenticate" := by
  induction evs generalizing s with
  | nil => simp [runClient]
  | cons e rest ih =>
      have hne : e ≠ WsEvent.recvAuthenticated := by
        intro he
        exact hno (by simp [he])
      have hrest : WsEvent.recvAuthenticated ∉ rest := by
        intro hr
        exact hno (by simp [hr])
      intro f hf
      cases e with
      | socketOpen tk =>
          simp only [runClient, stepClient, List.mem_append] at hf
          rcases hf with hf | hf
          · simp at hf
            rw [hf]
            rfl
          · exact ih { s with wsOpen := true } hs hrest f hf
      | recvAuthenticated => exact absurd rfl hne
      | socketClosed =>
          simp only [runClient, stepClient, List.mem_append] at hf
          rcases hf with hf | hf
          · simp at hf
          · exact ih _ rfl hrest f hf
      | call c =>
          simp only [runClient, stepClient, List.mem_append] at hf
          rcases hf with hf | hf
          · rw [hs] at hf
            simp [sendApp] at hf
          · exact ih _ hs hrest f hf

/-- C6: the first frame sent after the open event is the authenticate
envelope carrying the token; every convenience sender hands nothing to
send while isAuthenticated is false; and along any event trace from the
initial state in which authentication never succeeds, every frame the
client emits is an authenticate envelope. -/
theorem authenticate_before_app_frames :
    (∀ s tk, (stepClient s (.socketOpen tk)).2 = [authMessage tk]) ∧
    (∀ wsOpen c, sendApp false wsOpen c = []) ∧
    (∀ evs, WsEvent.recvAuthenticated ∉ evs →
      ∀ f ∈ (runClient initState evs).2, f.type = "authenticate") := by
  refine ⟨fun s tk => rfl, fun wsOpen c => rfl, ?_⟩
  intro evs hno
  exact runClient_no_auth_only_authenticate evs initState rfl hno

/-- C6 witness: after an open followed by an attempted circle-chat send
with authentication never succeeding, the only emitted frame is the
authenticate envelope. -/
theorem authenticate_before_app_frames_witness :
    ∀ f ∈ (runClient initState
      [WsEvent.socketOpen "tok", WsEvent.call (.sendMessage "c1" "hi")]).2,
      f.type = "authenticate" :=
  authenticate_before_app_frames.2.2
    [WsEvent.socketOpen "tok", WsEvent.call (.sendMessage "c1" "hi")] (by decide)

/-! ## Fixed setTimeout guards in connect (C7).

The connection timeout closes the socket and rejects the connect promise
only when the socket is still in the CONNECTING ready state; the
authentication promise settles at the first of: an authenticated message,
an error message whose field is auth, or the auth timeout firing. -/

inductive ReadyState where
  | connecting
  | opened
  | closing
  | closed
deriving DecidableEq

/-- The connection-timeout callback: (socket closed, promise rejected). -/
def connectionTimeoutFire (ws : Option ReadyState) : Bool × Bool :=
  match ws with
  | some .connecting => (true, true)
  | _ => (false, false)

inductive AuthEvent where
  | msg (type : String) (field : Option String) (message : Option String)
  | timeoutFire
deriving DecidableEq

inductive AuthResult where
  | resolved
  | rejectedAuth (msg : String)
  | rejectedTimeout
deriving DecidableEq

/-- The JS expression x or-else a default string. -/
def jsOrStr (o : Option String) (d : String) : String :=
  match o with
  | none => d
  | some s => if s = "" then d else s

/-- Whether a single event settles the authentication promise, mirroring
the temporary authHandler plus the timeout callback. -/
def authSettle : AuthEvent → Option AuthResult
  | .msg t f m =>
      if t = "authenticated" then some .resolved
      else if t = "error" ∧ f = some "auth" then
        some (.rejectedAuth (jsOrStr m "Authentication failed"))
      else none
  | .timeoutFire => some .rejectedTimeout

/-- A promise settles once: the outcome is the first settling event. -/
def authOutcome : List AuthEvent → Option AuthResult
  | [] => none
  | e :: rest =>
      match authSettle e with
      | some r => some r
      | none => authOutcome rest

theorem authOutcome_append_of_unsettled (pre : List AuthEvent)
    (hpre : ∀ e ∈ pre, authSettle e = none) (l : List AuthEvent) :
    authOutcome (pre ++ l) = authOutcome l := by
  induction pre with
  | nil => simp
  | cons e rest ih =>
      have he : authSettle e = none := hpre e (by simp)
      have hrest : ∀ x ∈ rest, authSettle x = none := fun x hx => hpre x (by simp [hx])
      simp only [List.cons_append, authOutcome, he]
      exact ih hrest

/-- C7: the fixed setTimeout guards of connect.  Firing the connection
timeout while the socket is still CONNECTING closes it and rejects the
connect promise (and does neither in any other ready state); and the
authentication promise is rejected by the auth timeout when no
authenticated message and no auth-field error preceded it, while an
authenticated message or an auth-field error arriving first settles it as
resolved or rejected respectively, pre-empting the timeout. -/
theorem connect_timeout_guards :
    (connectionTimeoutFire (some .connecting) = (true, true)) ∧
    (∀ ws, ws ≠ some ReadyState.connecting → connectionTimeoutFire ws = (false, false)) ∧
    (∀ pre post, (∀ e ∈ pre, authSettle e = none) →
      authOutcome (pre ++ AuthEvent.timeoutFire :: post) = some .rejectedTimeout) ∧
    (∀ pre post f m, (∀ e ∈ pre, authSettle e = none) →
      authOutcome (pre ++ AuthEvent.msg "authenticated" f m :: post) = some .resolved) ∧
    (∀ pre post m, (∀ e ∈ pre, authSettle e = none) →
      authOutcome (pre ++ AuthEvent.msg "error" (some "auth") m :: post)
        = some (.rejectedAuth (jsOrStr m "Authentication failed"))) := by
  refine ⟨rfl, ?_, ?_, ?_, ?_⟩
  · intro ws hws
    match ws with
    | none => rfl
    | some .connecting => exact absurd rfl hws
    | some .opened => rfl
    | some .closing => rfl
    | some .closed => rfl
  · intro pre post hpre
    rw [authOutcome_append_of_unsettled pre hpre]
    rfl
  · intro pre post f m hpre
    rw [authOutcome_append_of_unsettled pre hpre]
    rfl
  · intro pre post m hpre
    rw [authOutcome_append_of_unsettled pre hpre]
    rfl

/-- C7 witness: with only a non-settling message before it, the auth
timeout rejects; an authenticated message arriving first resolves. -/
theorem connect_timeout_guards_witness :
    authOutcome [AuthEvent.msg "user-typing" none none, AuthEvent.timeoutFire]
      = some .rejectedTimeout ∧
    authOutcome [AuthEvent.msg "authenticated" none none, AuthEvent.timeoutFire]
      = some .resolved :=
  ⟨connect_timeout_guards.2.2.1 [AuthEvent.msg "user-typing" none none] [] (by decide),
   connect_timeout_guards.2.2.2.1 [] [AuthEvent.timeoutFire] none none (by decide)⟩

/-! ## Agora channel-name sanitiser (C9).

sanitizeChannelName removes every character outside the allowed class
(ASCII alphanumerics, the listed punctuation, and whitespace), replaces
every whitespace run by a single hyphen, truncates to 64 characters and
falls back to call- followed by Date.now() rendered in base 36 when the
result is empty.  The JS whitespace class and the base-36 rendering are
modelled explicitly; the current time is a parameter bounded by the
ECMAScript time-value range. -/

def isAsciiAlnumChar (c : Char) : Bool :=
  ('0' ≤ c && c ≤ '9') || ('a' ≤ c && c ≤ 'z') || ('A' ≤ c && c ≤ 'Z')

/-- The punctuation kept by the character class of the sanitising regex. -/
def allowedPunct : List Char :=
  ['!', '#', '$', '%', '&', '(', ')', '+', '-', ':', ';', '<', '=', '.',
   '>', '?', '@', '[', ']', '^', '_', Char.ofNat 123, '|', Char.ofNat 125,
   '~', ',']

def isAllowedPunct (c : Char) : Bool :=
  c ∈ allowedPunct

/-- The JS regex whitespace class. -/
def isJsWhitespace (c : Char) : Bool :=
  c = '\t' || c = '\n' || c = Char.ofNat 11 || c = Char.ofNat 12 || c = '\r' ||
  c = ' ' || c = Char.ofNat 160 || c = Char.ofNat 5760 ||
  (Char.ofNat 8192 ≤ c && c ≤ Char.ofNat 8202) ||
  c = Char.ofNat 8232 || c = Char.ofNat 8233 || c = Char.ofNat 8239 ||
  c = Char.ofNat 8287 || c = Char.ofNat 12288 || c = Char.ofNat 65279

/-- A character surviving the first replace of sanitizeChannelName. -/
def isAllowedChar (c : Char) : Bool :=
  isAsciiAlnumChar c || isJsWhitespace c || isAllowedPunct c

/-- Replace every whitespace run by a single hyphen (the second replace of
sanitizeChannelName): the flag records whether the previous character was
whitespace, so only the first character of a run emits the hyphen. -/
def collapseWsGo (prevWs : Bool) : List Char → List Char
  | [] => []
  | c :: rest =>
      if isJsWhitespace c then
        if prevWs then collapseWsGo true rest
        else '-' :: collapseWsGo true rest
      else c :: collapseWsGo false rest

def collapseWs (l : List Char) : List Char :=
  collapseWsGo false l

/-- One base-36 digit, lowercase, as produced by Number.toString(36). -/
def digitChar36 (n : Nat) : Char :=
  if n < 10 then Char.ofNat (48 + n) else Char.ofNat (87 + n)

/-- A natural number rendered in base 36, as by Number.toString(36). -/
def toBase36 (n : Nat) : List Char :=
  if h : n < 36 then [digitChar36 n]
  else toBase36 (n / 36) ++ [digitChar36 (n % 36)]
decreasing_by
  exact Nat.div_lt_self (by omega) (by omega)

/-- The fallback channel name call- followed by the time in base 36. -/
def callFallback (now : Nat) : List Char :=
  ['c', 'a', 'l', 'l', '-'] ++ toBase36 now

/-- Embedding of AgoraService.sanitizeChannelName. -/
def sanitizeChannelName (now : Nat) (channelName : String) : String :=
  let step1 := channelName.data.filter isAllowedChar
  let step2 := collapseWs step1
  let step3 := step2.take 64
  if step3.isEmpty then String.mk (callFallback now) else String.mk step3

/-- The channel name that joinChannel passes to the audio SDK: it always
sanitises first. -/
def joinChannelName (now : Nat) (channelName : String) : String :=
  sanitizeChannelName now channelName

theorem digitChar36_ok (d : Nat) (hd : d < 36) :
    (isAsciiAlnumChar (digitChar36 d) || isAllowedPunct (digitChar36 d)) = true ∧
    isJsWhitespace (digitChar36 d) = false := by
  interval_cases d <;> exact ⟨by decide, by decide⟩

theorem toBase36_chars (n : Nat) :
    ∀ c ∈ toBase36 n,
      (isAsciiAlnumChar c || isAllowedPunct c) = true ∧ isJsWhitespace c = false := by
  induction n using Nat.strong_induction_on with
  | _ n ih =>
      intro c hc
      rw [toBase36] at hc
      by_cases h : n < 36
      · rw [dif_pos h] at hc
        have hceq : c = digitChar36 n := by simpa using hc
        subst hceq
        exact digitChar36_ok n h
      · rw [dif_neg h] at hc
        rcases List.mem_append.mp hc with hc2 | hc2
        · exact ih (n / 36) (Nat.div_lt_self (by omega) (by omega)) c hc2
        · have hceq : c = digitChar36 (n % 36) := by simpa using hc2
          subst hceq
          exact digitChar36_ok (n % 36) (Nat.mod_lt _ (by omega))

theorem toBase36_length_le (k : Nat) :
    ∀ n, 1 ≤ k → n < 36 ^ k → (toBase36 n).length ≤ k := by
  induction k with
  | zero => omega
  | succ k ih =>
      intro n _ hn
      rw [toBase36]
      by_cases h : n < 36
      · rw [dif_pos h]
        simp only [List.length_singleton]
        omega
      · rw [dif_neg h]
        simp only [List.length_append, List.length_singleton]
        have hk1 : 1 ≤ k := by
          rcases Nat.eq_zero_or_pos k with hk0 | hkpos
          · subst hk0
            rw [pow_one] at hn
            omega
          · exact hkpos
        have hdiv : n / 36 < 36 ^ k := by
          apply Nat.div_lt_of_lt_mul
          rw [pow_succ] at hn
          omega
        have := ih (n / 36) hk1 hdiv
        omega

theorem collapseWsGo_chars (l : List Char) :
    ∀ b, ∀ c ∈ collapseWsGo b l, c = '-' ∨ (c ∈ l ∧ isJsWhitespace c = false) := by
  induction l with
  | nil =>
      intro b c hc
      simp [collapseWsGo] at hc
  | cons c0 rest ih =>
      intro b c hc
      rw [collapseWsGo] at hc
      by_cases hws : isJsWhitespace c0
      · rw [if_pos hws] at hc
        cases b with
        | true =>
            rcases ih true c hc with h1 | ⟨h2, h3⟩
            · exact Or.inl h1
            · exact Or.inr ⟨List.mem_cons_of_mem c0 h2, h3⟩
        | false =>
            rcases List.mem_cons.mp hc with hc2 | hc2
            · exact Or.inl hc2
            · rcases ih true c hc2 with h1 | ⟨h2, h3⟩
              · exact Or.inl h1
              · exact Or.inr ⟨List.mem_cons_of_mem c0 h2, h3⟩
      · rw [if_neg hws] at hc
        rcases List.mem_cons.mp hc with hc2 | hc2
        · subst hc2
          exact Or.inr ⟨List.mem_cons_self _ _, by simpa using hws⟩
        · rcases ih false c hc2 with h1 | ⟨h2, h3⟩
          · exact Or.inl h1
          · exact Or.inr ⟨List.mem_cons_of_mem c0 h2, h3⟩

theorem collapseWs_chars (l : List Char) :
    ∀ c ∈ collapseWs l, c = '-' ∨ (c ∈ l ∧ isJsWhitespace c = false) :=
  collapseWsGo_chars l false

theorem sanitizeChannelName_eq (now : Nat) (name : String) :
    sanitizeChannelName now name =
      if ((collapseWs (name.data.filter isAllowedChar)).take 64).isEmpty
      then String.mk (callFallback now)
      else String.mk ((collapseWs (name.data.filter isAllowedChar)).take 64) := rfl

theorem data_mk (l : List Char) : (String.mk l).data = l := rfl

theorem length_mk (l : List Char) : (String.mk l).length = l.length := rfl

theorem mk_ne_empty (l : List Char) (hl : l ≠ []) : String.mk l ≠ "" := by
  intro hcontra
  apply hl
  have := congrArg String.data hcontra
  simpa using this

/-- C9: sanitizeChannelName always yields a non-empty name of at most 64
characters consisting only of allowed non-whitespace characters (ASCII
alphanumerics and the permitted punctuation, every whitespace run having
become a single hyphen), given the ECMAScript bound on the time value;
consequently joinChannel never passes an empty or over-long channel name
to the audio SDK. -/
theorem sanitize_channel_name_safe (now : Nat) (name : String)
    (hnow : now ≤ 8640000000000000) :
    sanitizeChannelName now name ≠ "" ∧
    (sanitizeChannelName now name).length ≤ 64 ∧
    (∀ c ∈ (sanitizeChannelName now name).data,
      (isAsciiAlnumChar c || isAllowedPunct c) = true ∧ isJsWhitespace c = false) ∧
    joinChannelName now name ≠ "" ∧
    (joinChannelName now name).length ≤ 64 := by
  have hpow : (36 : Nat) ^ 11 = 131621703842267136 := by norm_num
  have hlen36 : (toBase36 now).length ≤ 11 :=
    toBase36_length_le 11 now (by omega) (by omega)
  have hmain : sanitizeChannelName now name ≠ "" ∧
      (sanitizeChannelName now name).length ≤ 64 ∧
      (∀ c ∈ (sanitizeChannelName now name).data,
        (isAsciiAlnumChar c || isAllowedPunct c) = true ∧ isJsWhitespace c = false) := by
    rw [sanitizeChannelName_eq]
    by_cases hemp : ((collapseWs (name.data.filter isAllowedChar)).take 64).isEmpty = true
    · rw [if_pos hemp]
      refine ⟨?_, ?_, ?_⟩
      · exact mk_ne_empty _ (by simp [callFallback])
      · rw [length_mk]
        simp only [callFallback, List.length_append, List.length_cons, List.length_nil]
        omega
      · intro c hc
        rw [data_mk] at hc
        rcases List.mem_append.mp hc with hc2 | hc2
        · fin_cases hc2 <;> exact ⟨by decide, by decide⟩
        · exact toBase36_chars now c hc2
    · rw [if_neg hemp]
      refine ⟨?_, ?_, ?_⟩
      · apply mk_ne_empty
        intro hcontra
        rw [hcontra] at hemp
        simp at hemp
      · rw [length_mk]
        exact List.length_take_le 64 _
      · intro c hc
        rw [data_mk] at hc
        have hc2 : c ∈ collapseWs (name.data.filter isAllowedChar) :=
          List.take_subset 64 _ hc
        rcases collapseWs_chars _ c hc2 with rfl | ⟨hmem, hws⟩
        · exact ⟨by decide, by decide⟩
        · have hallow : isAllowedChar c = true := (List.mem_filter.mp hmem).2
          refine ⟨?_, hws⟩
          simp only [isAllowedChar, Bool.or_eq_true] at hallow
          rcases hallow with (ha | hw) | hp
          · simp [ha]
          · rw [hw] at hws
            simp at hws
          · simp [hp]
  exact ⟨hmain.1, hmain.2.1, hmain.2.2, hmain.1, hmain.2.1⟩

/-- C9 witness: a concrete channel name containing whitespace and
disallowed characters sanitises to a safe name. -/
theorem sanitize_channel_name_safe_witness :
    sanitizeChannelName 0 "my call" ≠ "" ∧
    (sanitizeChannelName 0 "my call").length ≤ 64 ∧
    (∀ c ∈ (sanitizeChannelName 0 "my call").data,
      (isAsciiAlnumChar c || isAllowedPunct c) = true ∧ isJsWhitespace c = false) ∧
    joinChannelName 0 "my call" ≠ "" ∧
    (joinChannelName 0 "my call").length ≤ 64 :=
  sanitize_channel_name_safe 0 "my call" (by decide)

/-! ## JWT token validation and the connect entry guards (C10).

decodeToken splits on the dot, requires exactly three parts and feeds the
middle part to JSON.parse composed with atob.  That platform composition
is abstracted as a decoder parameter: some payload when it produces a
truthy object, none when it throws or produces a falsy value (both make
isValidToken return false).  The payload carries an optional numeric exp
claim; a missing exp makes the greater-than comparison false, as
undefined comparisons are in JS. -/

structure TokenPayload where
  exp : Option Int
deriving DecidableEq

abbrev DecodeFn := String → Option TokenPayload

/-- The split of a token on the dot separator, as by the JS
token.split with a single-character separator. -/
def splitOnDot (t : String) : List String :=
  (t.data.splitOn '.').map String.mk

/-- Embedding of tokenUtils.decodeToken over an abstract middle-part
decoder. -/
def decodeToken (d : DecodeFn) (token : String) : Option TokenPayload :=
  let parts := splitOnDot token
  if parts.length ≠ 3 then none
  else d ((parts.get? 1).getD "")

/-- Embedding of tokenUtils.isValidToken; now is the current Unix time in
seconds. -/
def isValidToken (d : DecodeFn) (now : Int) (token : Option String) : Bool :=
  match token with
  | none => false
  | some t =>
      if t = "" then false
      else
        match decodeToken d t with
        | none => false
        | some p =>
            match p.exp with
            | none => false
            | some e => now < e

inductive ConnectInit where
  | resolvedAlreadyConnecting
  | resolvedAlreadyOpen
  | rejectedInvalidToken
  | socketCreated
deriving DecidableEq

/-- The entry of variant B connect: resolve early when a connection is in
progress or the socket is already open, then validate the token, rejecting
before any WebSocket is constructed when it is invalid. -/
def connectInitB (isConnecting wsOpen tokenValid : Bool) : ConnectInit :=
  if isConnecting then .resolvedAlreadyConnecting
  else if wsOpen then .resolvedAlreadyOpen
  else if !tokenValid then .rejectedInvalidToken
  else .socketCreated

/-- The entry of variant A connect: it has no early-resolve guards. -/
def connectInitA (tokenValid : Bool) : ConnectInit :=
  if !tokenValid then .rejectedInvalidToken else .socketCreated

/-- C10 counterexample: connect does not always reject on an invalid
token.  In variant B, when a connection attempt is already in progress
(isConnecting), connect resolves immediately without validating, so with
an invalid token (here the decoder that always fails, the empty token) the
outcome is an early resolve, not a rejection. -/
theorem connect_invalid_token_cex :
    isValidToken (fun _ => none) 0 (some "") = false ∧
    connectInitB true false false = ConnectInit.resolvedAlreadyConnecting ∧
    connectInitB true false false ≠ ConnectInit.rejectedInvalidToken := by
  refine ⟨rfl, rfl, ?_⟩
  decide

/-- C10 amended: isValidToken is true exactly when the token is present,
splits into three dot-separated parts, the middle part decodes to a truthy
payload, and its exp claim exceeds the current time; it is false (without
throwing, the embedding being total) on a missing, empty or malformed
token.  connect rejects before constructing a WebSocket whenever the token
is invalid and the early-resolve guards do not fire: unconditionally in
variant A, and in variant B whenever no connection is in progress and the
socket is not already open; moreover variant B never reaches socket
creation with an invalid token. -/
theorem token_validation_spec (d : DecodeFn) (now : Int) (token : Option String) :
    (isValidToken d now token = true ↔
      ∃ t p e, token = some t ∧ (splitOnDot t).length = 3 ∧
        d (((splitOnDot t).get? 1).getD "") = some p ∧ p.exp = some e ∧ now < e) ∧
    isValidToken d now none = false ∧
    isValidToken d now (some "") = false ∧
    (∀ t, (splitOnDot t).length ≠ 3 → isValidToken d now (some t) = false) ∧
    (∀ v, connectInitA v = ConnectInit.rejectedInvalidToken ↔ v = false) ∧
    (∀ v, connectInitB false false v = ConnectInit.rejectedInvalidToken ↔ v = false) ∧
    (∀ ic wo v, connectInitB ic wo v = ConnectInit.socketCreated → v = true) := by
  refine ⟨?_, rfl, rfl, ?_, ?_, ?_, ?_⟩
  · constructor
    · intro h
      match token with
      | none => simp [isValidToken] at h
      | some t =>
          refine ⟨t, ?_⟩
          by_cases ht : t = ""
          · rw [ht] at h
            simp [isValidToken] at h
          · rw [isValidToken] at h
            rw [if_neg ht] at h
            cases hd : decodeToken d t with
            | none => rw [hd] at h; simp at h
            | some p =>
                rw [hd] at h
                have h2 : (match p.exp with
                    | none => false
                    | some e => decide (now < e)) = true := h
                cases he : p.exp with
                | none => rw [he] at h2; simp at h2
                | some e =>
                    rw [he] at h2
                    refine ⟨p, e, rfl, ?_, ?_, he, by simpa using h2⟩
                    · by_contra hlen
                      rw [decodeToken] at hd
                      rw [if_pos hlen] at hd
                      exact Option.noConfusion hd
                    · rw [decodeToken] at hd
                      by_cases hlen : (splitOnDot t).length ≠ 3
                      · rw [if_pos hlen] at hd
                        exact Option.noConfusion hd
                      · rw [if_neg hlen] at hd
                        exact hd
    · rintro ⟨t, p, e, rfl, hlen, hdec, hexp, hlt⟩
      have ht : t ≠ "" := by
        intro hcontra
        subst hcontra
        exact absurd hlen (by decide)
      rw [isValidToken, if_neg ht]
      have hd : decodeToken d t = some p := by
        rw [decodeToken, if_neg (by omega)]
        exact hdec
      rw [hd]
      have hfin : (match p.exp with
          | none => false
          | some e => decide (now < e)) = true := by
        rw [hexp]
        simpa using hlt
      exact hfin
  · intro t hlen
    rw [isValidToken]
    by_cases ht : t = ""
    · rw [if_pos ht]
    · rw [if_neg ht]
      have hd : decodeToken d t = none := by
        rw [decodeToken, if_pos hlen]
      rw [hd]
  · intro v
    cases v <;> simp [connectInitA]
  · intro v
    cases v <;> simp [connectInitB]
  · intro ic wo v h
    cases ic <;> cases wo <;> cases v <;> simp_all [connectInitB]

/-- C10 witness: a decoder accepting the middle part with exp = 100 makes
a three-part token valid at time 5, and variant B connect with no guard
firing rejects an invalid token. -/
theorem token_validation_spec_witness :
    isValidToken (fun _ => some { exp := some 100 }) 5 (some "a.b.c") = true ∧
    connectInitB false false false = ConnectInit.rejectedInvalidToken := by
  constructor
  · exact (token_validation_spec (fun _ => some { exp := some 100 }) 5 (some "a.b.c")).1.mpr
      ⟨"a.b.c", { exp := some 100 }, 100, rfl, by decide, rfl, rfl, by decide⟩
  · exact ((token_validation_spec (fun _ => none) 0 none).2.2.2.2.2.1 false).mpr rfl

/-! ## ChatRoom and DirectMessageChat list updates (C1).

The ChatRoom new-message handler first checks the circle, then rejects
duplicates by id, then looks for a temporary placeholder (an id starting
with temp-, same content and userId) to replace in place, and only
otherwise appends.  The DirectMessageChat handler filters on the friend
and appends when the id is new. -/

structure ChatMessage where
  id : String
  content : Option String
  userId : String
  circleId : Option String
deriving DecidableEq

/-- The JS test id.startsWith applied to the temp- placeholder marker,
checked on the character lists. -/
def startsWithTemp (s : String) : Bool :=
  List.isPrefixOf "temp-".data s.data

/-- Embedding of the ChatRoom new-message state update. -/
def newMessageUpdate (circleId : String) (m : ChatMessage) (prev : List ChatMessage) :
    List ChatMessage :=
  if m.circleId = some circleId then
    if prev.any (fun x => x.id = m.id) then prev
    else
      match prev.findIdx? (fun x =>
          startsWithTemp x.id && x.content == m.content && x.userId == m.userId) with
      | some i => prev.set i m
      | none => prev ++ [m]
  else prev

structure DirectMessageRec where
  id : String
  content : Option String
  senderId : String
  receiverId : String
deriving DecidableEq

/-- Embedding of the DirectMessageChat handleNewDirectMessage state
update. -/
def newDirectMessageUpdate (friendId : String) (m : DirectMessageRec)
    (prev : List DirectMessageRec) : List DirectMessageRec :=
  if m.senderId = friendId || m.receiverId = friendId then
    if prev.any (fun x => x.id = m.id) then prev
    else prev ++ [m]
  else prev

/-- C1 counterexample: the ChatRoom update does not always append.  With a
temporary placeholder of matching content and user in the list, the
incoming real message replaces the placeholder in place instead of being
appended. -/
theorem new_message_not_append_cex :
    newMessageUpdate "c1"
      { id := "m1", content := some "hi", userId := "u1", circleId := some "c1" }
      [{ id := "temp-1", content := some "hi", userId := "u1", circleId := some "c1" }]
      = [{ id := "m1", content := some "hi", userId := "u1", circleId := some "c1" }] ∧
    newMessageUpdate "c1"
      { id := "m1", content := some "hi", userId := "u1", circleId := some "c1" }
      [{ id := "temp-1", content := some "hi", userId := "u1", circleId := some "c1" }]
      ≠ [{ id := "temp-1", content := some "hi", userId := "u1", circleId := some "c1" },
         { id := "m1", content := some "hi", userId := "u1", circleId := some "c1" }] := by
  constructor
  · decide
  · decide

theorem nodup_ids_append {α : Type} (idOf : α → String) (l : List α) (m : α)
    (hn : (l.map idOf).Nodup) (hm : idOf m ∉ l.map idOf) :
    ((l ++ [m]).map idOf).Nodup := by
  rw [List.map_append]
  simp only [List.map_cons, List.map_nil]
  rw [List.nodup_append]
  refine ⟨hn, List.nodup_singleton _, ?_⟩
  intro a ha hb
  simp only [List.mem_singleton] at hb
  subst hb
  exact hm ha

/-- C1 amended: for a new-message event of the open circle, the ChatRoom
update leaves the list unchanged when the id is already present, replaces
the first matching temporary placeholder in place when one exists, and
appends otherwise; an event of a different circle leaves the list
unchanged; in every case no duplicate id is introduced.  The
DirectMessageChat update appends exactly when the message belongs to the
open conversation and its id is absent, leaves the list unchanged
otherwise, and never introduces a duplicate id. -/
theorem new_message_update_correct (circleId friendId : String) (m : ChatMessage)
    (dm : DirectMessageRec) (prev : List ChatMessage) (dprev : List DirectMessageRec) :
    (m.circleId ≠ some circleId → newMessageUpdate circleId m prev = prev) ∧
    (m.circleId = some circleId → (∃ x ∈ prev, x.id = m.id) →
      newMessageUpdate circleId m prev = prev) ∧
    (m.circleId = some circleId → (∀ x ∈ prev, x.id ≠ m.id) →
      prev.findIdx? (fun x =>
        startsWithTemp x.id && x.content == m.content && x.userId == m.userId) = none →
      newMessageUpdate circleId m prev = prev ++ [m]) ∧
    (∀ i, m.circleId = some circleId → (∀ x ∈ prev, x.id ≠ m.id) →
      prev.findIdx? (fun x =>
        startsWithTemp x.id && x.content == m.content && x.userId == m.userId) = some i →
      newMessageUpdate circleId m prev = prev.set i m) ∧
    ((prev.map (fun x => x.id)).Nodup →
      ((newMessageUpdate circleId m prev).map (fun x => x.id)).Nodup) ∧
    ((dm.senderId ≠ friendId ∧ dm.receiverId ≠ friendId) →
      newDirectMessageUpdate friendId dm dprev = dprev) ∧
    ((dm.senderId = friendId ∨ dm.receiverId = friendId) → (∃ x ∈ dprev, x.id = dm.id) →
      newDirectMessageUpdate friendId dm dprev = dprev) ∧
    ((dm.senderId = friendId ∨ dm.receiverId = friendId) → (∀ x ∈ dprev, x.id ≠ dm.id) →
      newDirectMessageUpdate friendId dm dprev = dprev ++ [dm]) ∧
    ((dprev.map (fun x => x.id)).Nodup →
      ((newDirectMessageUpdate friendId dm dprev).map (fun x => x.id)).Nodup) := by
  have hany_of_ex : ∀ (l : List ChatMessage),
      (∃ x ∈ l, x.id = m.id) → l.any (fun x => x.id = m.id) = true := by
    intro l hex
    rw [List.any_eq_true]
    obtain ⟨x, hx, hid⟩ := hex
    exact ⟨x, hx, by simpa using hid⟩
  have hany_of_all : ∀ (l : List ChatMessage),
      (∀ x ∈ l, x.id ≠ m.id) → l.any (fun x => x.id = m.id) = false := by
    intro l hall
    rw [List.any_eq_false]
    intro x hx
    simpa using hall x hx
  have hdany_of_ex : ∀ (l : List DirectMessageRec),
      (∃ x ∈ l, x.id = dm.id) → l.any (fun x => x.id = dm.id) = true := by
    intro l hex
    rw [List.any_eq_true]
    obtain ⟨x, hx, hid⟩ := hex
    exact ⟨x, hx, by simpa using hid⟩
  have hdany_of_all : ∀ (l : List DirectMessageRec),
      (∀ x ∈ l, x.id ≠ dm.id) → l.any (fun x => x.id = dm.id) = false := by
    intro l hall
    rw [List.any_eq_false]
    intro x hx
    simpa using hall x hx
  refine ⟨?_, ?_, ?_, ?_, ?_, ?_, ?_, ?_, ?_⟩
  · intro hne
    rw [newMessageUpdate, if_neg hne]
  · intro hc hex
    rw [newMessageUpdate, if_pos hc, if_pos (hany_of_ex prev hex)]
  · intro hc hall hfind
    rw [newMessageUpdate, if_pos hc]
    rw [if_neg (by rw [hany_of_all prev hall]; exact Bool.false_ne_true)]
    rw [hfind]
  · intro i hc hall hfind
    rw [newMessageUpdate, if_pos hc]
    rw [if_neg (by rw [hany_of_all prev hall]; exact Bool.false_ne_true)]
    rw [hfind]
  · intro hnodup
    rw [newMessageUpdate]
    by_cases hc : m.circleId = some circleId
    · rw [if_pos hc]
      by_cases hany : prev.any (fun x => x.id = m.id) = true
      · rw [if_pos hany]
        exact hnodup
      · rw [if_neg hany]
        have hnotin : m.id ∉ prev.map (fun x => x.id) := by
          intro hmem
          apply hany
          rw [List.any_eq_true]
          rw [List.mem_map] at hmem
          obtain ⟨x, hx, hid⟩ := hmem
          exact ⟨x, hx, by simpa using hid⟩
        cases hfind : prev.findIdx? (fun x =>
            startsWithTemp x.id && x.content == m.content && x.userId == m.userId) with
        | none => exact nodup_ids_append _ prev m hnodup hnotin
        | some i =>
            rw [List.map_set]
            exact List.Nodup.set hnodup hnotin
    · rw [if_neg hc]
      exact hnodup
  · intro hne
    rw [newDirectMessageUpdate]
    rw [if_neg (by simp [hne.1, hne.2])]
  · intro hc hex
    rw [newDirectMessageUpdate, if_pos (by rcases hc with h | h <;> simp [h]),
      if_pos (hdany_of_ex dprev hex)]
  · intro hc hall
    rw [newDirectMessageUpdate, if_pos (by rcases hc with h | h <;> simp [h])]
    rw [if_neg (by rw [hdany_of_all dprev hall]; exact Bool.false_ne_true)]
  · intro hnodup
    rw [newDirectMessageUpdate]
    by_cases hc : (dm.senderId = friendId || dm.receiverId = friendId) = true
    · rw [if_pos hc]
      by_cases hany : dprev.any (fun x => x.id = dm.id) = true
      · rw [if_pos hany]
        exact hnodup
      · rw [if_neg hany]
        have hnotin : dm.id ∉ dprev.map (fun x => x.id) := by
          intro hmem
          apply hany
          rw [List.any_eq_true]
          rw [List.mem_map] at hmem
          obtain ⟨x, hx, hid⟩ := hmem
          exact ⟨x, hx, by simpa using hid⟩
        exact nodup_ids_append _ dprev dm hnodup hnotin
    · rw [if_neg hc]
      exact hnodup

/-- C1 witness: a fresh message of the open circle with no duplicate and
no placeholder is appended, and a direct message of another conversation
leaves the list unchanged. -/
theorem new_message_update_correct_witness :
    newMessageUpdate "c1"
      { id := "m2", content := some "yo", userId := "u1", circleId := some "c1" }
      [{ id := "m1", content := some "hi", userId := "u1", circleId := some "c1" }]
      = [{ id := "m1", content := some "hi", userId := "u1", circleId := some "c1" },
         { id := "m2", content := some "yo", userId := "u1", circleId := some "c1" }] ∧
    newDirectMessageUpdate "f1"
      { id := "d1", content := some "hey", senderId := "s9", receiverId := "r9" }
      [] = [] := by
  constructor
  · exact (new_message_update_correct "c1" "f1"
      { id := "m2", content := some "yo", userId := "u1", circleId := some "c1" }
      { id := "d1", content := some "hey", senderId := "s9", receiverId := "r9" }
      [{ id := "m1", content := some "hi", userId := "u1", circleId := some "c1" }]
      []).2.2.1 (by decide) (by decide) (by decide)
  · exact (new_message_update_correct "c1" "f1"
      { id := "m2", content := some "yo", userId := "u1", circleId := some "c1" }
      { id := "d1", content := some "hey", senderId := "s9", receiverId := "r9" }
      [{ id := "m1", content := some "hi", userId := "u1", circleId := some "c1" }]
      []).2.2.2.2.2.1 (by decide)

end Mamami
